import Mathlib

set_option maxRecDepth 10000

/-!
Shallow embedding of `src/pint/models/timing_model.py`: the `Parameter`
class (parfile line serialization and parsing), the `TimingModel`
aggregate (parameter registration, delay aggregation, parfile reading)
and the `DuplicateParameter` error, together with proofs about them.

Modelling conventions: Python strings are Lean `String`s, Python floats
are exact rationals `ℚ` (the claims under study are structural, not
floating-point claims), a raised exception is a `none` / `Except.error`
result, and in-place mutation is explicit state passing.
-/

namespace Pint

/-! ## Python string primitives used by `timing_model.py` -/

/-- Separator test of Python `str.split()` with no argument: any whitespace. -/
def isWs (c : Char) : Bool := c.isWhitespace

/-- Chunks of a character list between separator characters (the splitting
core of `str.split()`); consecutive separators yield empty chunks, removed
later by `fTokens`. -/
def splitChunks (cs : List Char) (acc : List Char) : List (List Char) :=
  match cs with
  | [] => [acc.reverse]
  | c :: rest => if isWs c then acc.reverse :: splitChunks rest [] else splitChunks rest (c :: acc)

/-- The non-empty whitespace-separated fields of a character list. -/
def fTokens (cs : List Char) : List (List Char) :=
  (splitChunks cs []).filter (fun l => !l.isEmpty)

/-- Python `line.split()`: whitespace-delimited fields, empties dropped. -/
def pySplit (s : String) : List String :=
  (fTokens s.data).map (fun l => String.mk l)

/-- Python `str.upper()` on one character (ASCII case, which is all the
parfile format uses). -/
def upChar (c : Char) : Char :=
  if 'a' ≤ c ∧ c ≤ 'z' then Char.ofNat (c.toNat - 32) else c

/-- Python `str.upper()`. -/
def pyUpper (s : String) : String := String.mk (s.data.map upChar)

/-- Python `string.strip(l)`: drop leading and trailing whitespace. -/
def pyStrip (s : String) : String :=
  String.mk (((s.data.dropWhile isWs).reverse.dropWhile isWs).reverse)

/-- Python `l.startswith('#')`. -/
def startsHash (s : String) : Bool :=
  match s.data with
  | '#' :: _ => true
  | _ => false

/-- Python `"%-Ns" % s`: left-justify `s` in a field of minimum width `w`. -/
def padRight (w : Nat) (s : String) : String :=
  s ++ String.mk (List.replicate (w - s.data.length) ' ')

/-- Python `"%Ns" % s`: right-justify `s` in a field of minimum width `w`. -/
def padLeft (w : Nat) (s : String) : String :=
  String.mk (List.replicate (w - s.data.length) ' ') ++ s

/-! ## Numeric parsing and printing -/

/-- Numeric value of one decimal digit character. -/
def digitVal (c : Char) : Nat := c.toNat - 48

/-- Value of a list of decimal digit characters. -/
def natOfDigits (cs : List Char) : Nat :=
  cs.foldl (fun a c => a * 10 + digitVal c) 0

/-- Python `int(tok)` on a whitespace-free token: optional sign followed by
decimal digits.  `none` models the raised `ValueError`. -/
def pyInt (s : String) : Option Int :=
  let core : List Char → Option Nat := fun ds =>
    if ds ≠ [] ∧ ds.all Char.isDigit then some (natOfDigits ds) else none
  match s.data with
  | '+' :: ds => (core ds).map (fun n => (n : Int))
  | '-' :: ds => (core ds).map (fun n => -(n : Int))
  | ds => (core ds).map (fun n => (n : Int))

/-- Exponent part after the marker: optional sign then digits. -/
def parseExp (cs : List Char) : Option Int :=
  match cs with
  | '+' :: ds => if ds ≠ [] ∧ ds.all Char.isDigit then some ((natOfDigits ds : Int)) else none
  | '-' :: ds => if ds ≠ [] ∧ ds.all Char.isDigit then some (-(natOfDigits ds : Int)) else none
  | ds => if ds ≠ [] ∧ ds.all Char.isDigit then some ((natOfDigits ds : Int)) else none

/-- Modelled from the spec: `fortran_float` (defined in `pint.utils`, which
is not under `src/`) parses a decimal literal in the permissive legacy
scientific notation, tolerating `D`/`d` as exponent marker in addition to
`E`/`e` (accepting strings like `1.23D-4`).  The result is the exact
rational value of the literal; `none` models the raised `ValueError`. -/
def fortran_float (s : String) : Option ℚ :=
  let core : List Char → Option ℚ := fun cs =>
    let ip := cs.takeWhile Char.isDigit
    let rest1 := cs.dropWhile Char.isDigit
    let mant : Option (Nat × Nat × List Char) :=
      match rest1 with
      | '.' :: rest2 =>
        let fp := rest2.takeWhile Char.isDigit
        let rest3 := rest2.dropWhile Char.isDigit
        if ip.isEmpty && fp.isEmpty then none
        else some (natOfDigits (ip ++ fp), fp.length, rest3)
      | _ => if ip.isEmpty then none else some (natOfDigits ip, 0, rest1)
    match mant with
    | none => none
    | some nfr =>
      let exp : Option Int :=
        match nfr.2.2 with
        | [] => some 0
        | e :: rest2 =>
          if e = 'e' ∨ e = 'E' ∨ e = 'd' ∨ e = 'D' then parseExp rest2 else none
      match exp with
      | none => none
      | some ex =>
        let e10 : Int := ex - (nfr.2.1 : Int)
        some (if 0 ≤ e10 then mkRat ((nfr.1 : Int) * ((10 ^ e10.toNat : Nat) : Int)) 1
              else mkRat (nfr.1 : Int) (10 ^ (-e10).toNat))
  match s.data with
  | '+' :: cs => core cs
  | '-' :: cs => (core cs).map (fun q => mkRat (-q.num) q.den)
  | cs => core cs

/-- Decimal digit characters of a natural number, most significant first
(`fuel` bounds the recursion; `natToChars` supplies enough). -/
def natToCharsAux : Nat → Nat → List Char
  | 0, _ => []
  | fuel + 1, n => if n < 10 then [Char.ofNat (48 + n)] else natToCharsAux fuel (n / 10) ++ [Char.ofNat (48 + n % 10)]

def natToChars (n : Nat) : List Char := natToCharsAux (n + 1) n

def printNat (n : Nat) : String := String.mk (natToChars n)

/-- Smallest `k ≤ 60` with `d ∣ 10 ^ k`, if any. -/
def pow10Exp (d : Nat) : Option Nat :=
  (List.range 61).find? (fun k => 10 ^ k % d == 0)

/-- Python `str` on a float, modelled as exact decimal printing of a
rational whose denominator divides a power of ten (the only values the
numeric parsers here produce); other rationals fall back to an `a/b` form.
Python also prints a trailing `.0` on integral floats, which no claim
depends on. -/
def printQ (q : ℚ) : String :=
  let sign := if q.num < 0 then ("-") else ("")
  match pow10Exp q.den with
  | some k =>
    if k = 0 then sign ++ printNat q.num.natAbs
    else
      let ds := natToChars (q.num.natAbs * (10 ^ k / q.den))
      let ds := if ds.length ≤ k then List.replicate (k + 1 - ds.length) '0' ++ ds else ds
      sign ++ String.mk (ds.take (ds.length - k)) ++ "." ++ String.mk (ds.drop (ds.length - k))
  | none => sign ++ printNat q.num.natAbs ++ "/" ++ printNat q.den

/-! ## The `Parameter` class -/

/-- Python runtime values a parameter may hold: numbers (floats, modelled
exactly as rationals) and strings. -/
inductive Val where
  | num (q : ℚ)
  | strv (s : String)
deriving DecidableEq

/-- Python `str` on a parameter value. -/
def pyStr : Val → String
  | .num q => printQ q
  | .strv s => s

/-- The default `parse_value=fortran_float` of `Parameter.__init__`. -/
def fortranParse (s : String) : Option Val := (fortran_float s).map Val.num

/-- The `parse_value=str` used for string-valued parameters such as `PSR`
(Python `str` on a string is the identity). -/
def strParse (s : String) : Option Val := some (Val.strv s)

/-- The `Parameter` class of `timing_model.py`: one named model quantity
with parse/print logic and parfile line (de)serialization.  Field defaults
are the Python keyword defaults; a `none` result of `parse_value` models a
raised exception in the configured parser. -/
structure Parameter where
  name : String
  value : Option Val := none
  units : Option String := none
  description : Option String := none
  uncertainty : Option Val := none
  frozen : Bool := true
  continuous : Bool := true
  aliases : List String := []
  parse_value : String → Option Val := fortranParse
  print_value : Val → String := pyStr

/-- `Parameter.set`: parse a string with the configured parser and store
the result as the value. -/
def Parameter.set (p : Parameter) (s : String) : Option Parameter :=
  (p.parse_value s).map (fun v => { p with value := some v })

/-- `Parameter.add_alias` (pure-value view; the sharing of the default
alias list object is modelled separately below). -/
def Parameter.add_alias (p : Parameter) (a : String) : Parameter :=
  { p with aliases := p.aliases ++ [a] }

/-- `Parameter.help_line`. -/
def Parameter.help_line (p : Parameter) : String :=
  let out := padRight 12 p.name ++ " " ++ (match p.description with | some d => d | none => "None")
  match p.units with
  | some u => out ++ " (" ++ u ++ ")"
  | none => out

/-- `Parameter.as_parfile_line`. -/
def Parameter.as_parfile_line (p : Parameter) : String :=
  match p.value with
  | none => ""
  | some v =>
    let line := padRight 15 p.name ++ " " ++ padLeft 25 (p.print_value v)
    let line :=
      match p.uncertainty with
      | some u => line ++ " " ++ (if p.frozen then ("0") else ("1")) ++ " " ++ pyStr u
      | none => if !p.frozen then line ++ " 1" else line
    line ++ "\n"

/-- Handling of tokens `k[2]` (fit flag, `int`-parsed) and `k[3]`
(uncertainty, `fortran_float`-parsed) of a claimed parfile line. -/
def Parameter.applyTail (p : Parameter) (rest : List String) : Option (Bool × Parameter) :=
  match rest with
  | [] => some (true, p)
  | t2 :: rest2 =>
    match pyInt t2 with
    | none => none
    | some i =>
      let p := if 0 < i then { p with frozen := false } else p
      match rest2 with
      | [t3] =>
        match fortran_float t3 with
        | none => none
        | some u => some (true, { p with uncertainty := some (Val.num u) })
      | _ => some (true, p)

/-- `Parameter.from_parfile_line`: attempt to claim a parfile line.
A result `some (b, p')` models a normal return of `b` with updated state
`p'`; `none` models an exception raised by one of the token parsers. -/
def Parameter.from_parfile_line (p : Parameter) (line : String) : Option (Bool × Parameter) :=
  match pySplit line with
  | [] => some (false, p)
  | t0 :: ts =>
    if pyUpper t0 ≠ p.name ∧ pyUpper t0 ∉ p.aliases then some (false, p)
    else
      match ts with
      | [] => some (false, p)
      | t1 :: rest =>
        match p.set t1 with
        | none => none
        | some p1 => p1.applyTail rest

/-! ## The `TimingModel` class -/

/-- The `DuplicateParameter` exception of `timing_model.py`. -/
structure DuplicateParameter where
  param : String
  msg : Option String := none
deriving DecidableEq

/-- The `TimingModel` class.  The dynamically `setattr`-injected parameter
attributes are modelled by the association list `paramAttrs`; `τ` is the
TOA type (a black box to this module), and delay contributions are
modelled as rationals. -/
structure TimingModel (τ : Type) where
  params : List String := []
  delay_funcs : List (τ → ℚ) := []
  phase_funcs : List (τ → ℚ → ℚ) := []
  delay_derivs : List (String × List (τ → ℚ)) := []
  phase_derivs : List (String × List (τ → ℚ)) := []
  d_phase_funcs : List (τ → ℚ) := []
  paramAttrs : List (String × Parameter) := []

variable {τ : Type}

/-- Python dict / dynamic-attribute lookup on an association list. -/
def dictGet {β : Type} (d : List (String × β)) (k : String) : Option β :=
  match d with
  | [] => none
  | kv :: rest => if kv.1 = k then some kv.2 else dictGet rest k

/-- Replacement of the binding of key `k` (Python `setattr` on an existing
attribute / in-place mutation of the stored object). -/
def setAttr {β : Type} (d : List (String × β)) (k : String) (v : β) : List (String × β) :=
  d.map (fun kv => if kv.1 = k then (k, v) else kv)

/-- Attribute names every `TimingModel` instance has before any `add_param`
call: the attributes assigned in `__init__` and the methods of the class.
Real Python objects expose further inherited attributes, which would only
enlarge this set. -/
def builtinAttrs : List String :=
  [("params"), ("delay_funcs"), ("phase_funcs"), ("delay_derivs"), ("phase_derivs"),
   ("d_phase_funcs"), ("setup"), ("add_param"), ("param_help"), ("phase"), ("delay"),
   ("d_phase_d_tpulsar"), ("d_phase_d_toa"), ("d_phase_d_param"), ("d_delay_d_param"),
   ("as_parfile"), ("read_parfile")]

/-- Python `hasattr(self, name)` on a model instance. -/
def TimingModel.hasAttr (m : TimingModel τ) (name : String) : Bool :=
  builtinAttrs.contains name || m.paramAttrs.any (fun kv => kv.1 == name)

/-- `TimingModel.add_param`. -/
def TimingModel.add_param (m : TimingModel τ) (p : Parameter) :
    Except DuplicateParameter (TimingModel τ) :=
  if m.hasAttr p.name then Except.error { param := p.name }
  else Except.ok { m with
    paramAttrs := m.paramAttrs ++ [(p.name, p)]
    params := m.params ++ [p.name]
    delay_derivs := if p.continuous then m.delay_derivs ++ [(p.name, [])] else m.delay_derivs
    phase_derivs := if p.continuous then m.phase_derivs ++ [(p.name, [])] else m.phase_derivs }

/-- The built-in `PSR` parameter that `TimingModel.__init__` registers. -/
def PSRparam : Parameter :=
  { name := "PSR", units := none, description := some ("Source name"),
    aliases := [("PSRJ"), ("PSRB")], parse_value := strParse }

/-- `TimingModel.__init__`: empty lists and mappings, then `add_param` of
the built-in `PSR` parameter (which always succeeds on the fresh object). -/
def TimingModel.init (τ : Type) : TimingModel τ :=
  match TimingModel.add_param {} PSRparam with
  | .ok m => m
  | .error _ => {}

/-- `TimingModel.setup`: the base-class implementation is a no-op. -/
def TimingModel.setup (m : TimingModel τ) : TimingModel τ := m

/-- `TimingModel.delay`: accumulate every registered delay component
function over the TOA, starting from `0.0`. -/
def TimingModel.delay (m : TimingModel τ) (toa : τ) : ℚ :=
  m.delay_funcs.foldl (fun acc df => acc + df toa) 0

/-- `TimingModel.d_delay_d_param`.  `none` models the `KeyError` raised by
the subscript `self.delay_derivs[param]` when `param` is not a key of the
mapping. -/
def TimingModel.d_delay_d_param (m : TimingModel τ) (toa : τ) (param : String) : Option ℚ :=
  match dictGet m.delay_derivs param with
  | none => none
  | some fs => some (fs.foldl (fun acc f => acc + f toa) 0)

/-- One `for par in self.params` iteration of `read_parfile`'s inner loop:
`getattr` the parameter, offer it the line, store the mutated parameter,
accumulate the `parsed` flag. -/
def offerFold (l : String) (acc : TimingModel τ × Bool) (par : String) :
    Option (TimingModel τ × Bool) :=
  match dictGet acc.1.paramAttrs par with
  | none => none
  | some p =>
    match p.from_parfile_line l with
    | none => none
    | some bp =>
      some ({ acc.1 with paramAttrs := setAttr acc.1.paramAttrs par bp.2 }, acc.2 || bp.1)

/-- Offer one stripped line to every registered parameter in registration
order, threading the in-place mutations; the boolean is `parsed`. -/
def offer_line (m : TimingModel τ) (l : String) : Option (TimingModel τ × Bool) :=
  m.params.foldlM (offerFold l) (m, false)

/-- One loop iteration of `read_parfile`: strip the raw line, skip blank
and `#`-commented lines, otherwise offer the line to every parameter and
count a warning when no parameter claimed it. -/
def lineStep (acc : TimingModel τ × Nat) (rawLine : String) :
    Option (TimingModel τ × Nat) :=
  let l := pyStrip rawLine
  if l = "" then some acc
  else if startsHash l then some acc
  else
    match offer_line acc.1 l with
    | none => none
    | some mp => some (mp.1, if mp.2 then acc.2 else acc.2 + 1)

/-- The line loop of `TimingModel.read_parfile` over the file's lines,
returning the updated model and the number of unrecognized-line warnings
issued by `warn`. -/
def read_parfile_lines (m : TimingModel τ) (lines : List String) :
    Option (TimingModel τ × Nat) :=
  lines.foldlM lineStep (m, 0)

/-- `TimingModel.read_parfile`, with the file contents supplied as its
list of lines and the dynamically dispatched `setup` method as a function
argument (the base class's is `TimingModel.setup`); `none` models an
exception escaping the read before `setup` runs. -/
def read_parfile (doSetup : TimingModel τ → TimingModel τ)
    (m : TimingModel τ) (lines : List String) : Option (TimingModel τ × Nat) :=
  match read_parfile_lines m lines with
  | none => none
  | some mw => some (doSetup mw.1, mw.2)

/-! ## The shared default alias list (`aliases=[]` in `Parameter.__init__`)

Python evaluates the default expression `aliases=[]` once, at function
definition time; `self.aliases = aliases` then stores a reference to that
single list object in every instance constructed without an explicit
`aliases` argument, and `add_alias` mutates the referenced object.  The
heap of alias-list objects is made explicit here. -/

/-- A heap of Python list objects used as `aliases` lists; cell `0` is the
module-level default list object created by `def __init__(..., aliases=[], ...)`. -/
structure AliasStore where
  cells : List (List String)

/-- The heap at module load: only the (empty) default list object. -/
def initAliasStore : AliasStore := { cells := [[]] }

/-- A parameter whose alias list is held by reference into an `AliasStore`;
every method reading `self.aliases` goes through `resolveP`.  The `aliases`
field of `base` is inert here. -/
structure PRef where
  base : Parameter
  aliasesRef : Nat

/-- `Parameter.__init__` with the heap explicit: constructing with no
`aliases` argument stores a reference to the shared default cell `0`;
passing a list allocates a fresh cell. -/
def mkParameterRef (store : AliasStore) (p : Parameter)
    (aliasesArg : Option (List String)) : AliasStore × PRef :=
  match aliasesArg with
  | none => (store, { base := p, aliasesRef := 0 })
  | some l => ({ cells := store.cells ++ [l] }, { base := p, aliasesRef := store.cells.length })

/-- `Parameter.add_alias` through the heap: `self.aliases.append(alias)`
mutates the referenced list object in place. -/
def PRef.add_alias (store : AliasStore) (p : PRef) (a : String) : AliasStore :=
  { cells := store.cells.set p.aliasesRef ((store.cells.getD p.aliasesRef []) ++ [a]) }

/-- The parameter value seen by any method of `p` at heap state `store`. -/
def resolveP (store : AliasStore) (p : PRef) : Parameter :=
  { p.base with aliases := store.cells.getD p.aliasesRef [] }

/-! ## Claim-level predicates -/

/-- A well-formed parfile field: non-empty and whitespace-free. -/
def tokenOK (s : String) : Prop := s.data ≠ [] ∧ ∀ c ∈ s.data, isWs c = false

/-- All trailing tokens (fit flag, uncertainty) of a claimed line parse. -/
def tailParsesB (rest : List String) : Bool :=
  match rest with
  | [] => true
  | t2 :: rest2 =>
    (pyInt t2).isSome && (match rest2 with | [t3] => (fortran_float t3).isSome | _ => true)

/-- The early-return (`not claimed`) condition of `from_parfile_line`: no
tokens, first token matching neither name nor aliases, or a single token. -/
def notClaimedCond (p : Parameter) (line : String) : Bool :=
  match pySplit line with
  | [] => true
  | t0 :: ts => (decide (pyUpper t0 ≠ p.name ∧ pyUpper t0 ∉ p.aliases)) || ts.isEmpty

/-- Whether the parameter registered (in `m`) under `par` claims line `l`. -/
def pclaimsAt (m : TimingModel τ) (par : String) (l : String) : Bool :=
  match dictGet m.paramAttrs par with
  | some p =>
    match p.from_parfile_line l with
    | some bp => bp.1
    | none => false
  | none => false

/-- Whether some registered parameter of `m` claims line `l`. -/
def anyClaims (m : TimingModel τ) (l : String) : Bool :=
  m.params.any (fun par => pclaimsAt m par l)

/-- The stripped lines of a parfile that `read_parfile` actually processes
(blank lines and `#`-comments removed). -/
def keptLines (lines : List String) : List String :=
  (lines.map pyStrip).filter (fun l => !(l == "" || startsHash l))

/-- The action of `read_parfile` on one processed (non-skipped) line. -/
def procLine (acc : TimingModel τ × Nat) (l : String) : Option (TimingModel τ × Nat) :=
  match offer_line acc.1 l with
  | none => none
  | some mp => some (mp.1, if mp.2 then acc.2 else acc.2 + 1)

/-! ## Concrete instances used by counterexamples and witnesses -/

/-- A fresh default parameter named `F0` (default `parse_value=fortran_float`). -/
def F0test : Parameter := { name := "F0" }

/-- A fully-specified `F0`: value 100, uncertainty 10⁻⁴, not frozen. -/
def F0full : Parameter :=
  { name := "F0", value := some (Val.num (mkRat 100 1)),
    uncertainty := some (Val.num (mkRat 1 10000)), frozen := false }

/-- A string-valued parameter whose name is not upper-case. -/
def pLower : Parameter :=
  { name := "psr", value := some (Val.strv ("J1")), parse_value := strParse }

/-- A fresh parameter with the same (lower-case) name. -/
def pLowerFresh : Parameter := { name := "psr", parse_value := strParse }

/-- A parameter whose name collides with the `PSRJ` alias of `PSR`. -/
def pPSRJ : Parameter := { name := "PSRJ", parse_value := strParse }

/-- A non-continuous parameter named `F1`. -/
def pF1nc : Parameter := { name := "F1", continuous := false }

/-- The model obtained by registering `pF1nc` on a fresh model. -/
def mC6 : TimingModel Unit :=
  match (TimingModel.init Unit).add_param pF1nc with
  | .ok m => m
  | .error _ => TimingModel.init Unit

/-- A parameter named like the pre-existing `params` attribute. -/
def pParamsName : Parameter := { name := "params" }

/-- A fresh default parameter named `F2`. -/
def pF2 : Parameter := { name := "F2" }

/-- A second parameter named `PSR` (duplicate of the built-in one). -/
def pPSR2 : Parameter := { name := "PSR", parse_value := strParse }

/-- Parfile lines with a comment, a blank line, one claimed line and one
foreign line. -/
def linesC7 : List String := [("# c"), (""), ("  PSR J1 "), ("FOO 1 2")]

/-- The model state after the line loop of `read_parfile` over `linesC7`. -/
def mC7res : TimingModel Unit :=
  match read_parfile_lines (TimingModel.init Unit) linesC7 with
  | some r => r.1
  | none => TimingModel.init Unit

/-! ## String and tokenization lemmas -/

@[simp] theorem data_mk (l : List Char) : (String.mk l).data = l := rfl

@[simp] theorem data_append (s t : String) : (s ++ t).data = s.data ++ t.data := by
  cases s
  cases t
  rfl

theorem mk_data (s : String) : String.mk s.data = s := by
  cases s
  rfl

theorem isEmpty_eq_false {w : List Char} (hne : w ≠ []) : w.isEmpty = false := by
  cases w with
  | nil => exact absurd rfl hne
  | cons a l => rfl

theorem splitChunks_append_nonsep (w : List Char) (hw : ∀ c ∈ w, isWs c = false) :
    ∀ rest acc : List Char, splitChunks (w ++ rest) acc = splitChunks rest (w.reverse ++ acc) := by
  induction w with
  | nil => intro rest acc; simp
  | cons c w ih =>
    intro rest acc
    have hc : isWs c = false := hw c (by simp)
    have hw' : ∀ x ∈ w, isWs x = false := fun x hx => hw x (by simp [hx])
    simp only [List.cons_append, splitChunks, hc, Bool.false_eq_true, if_false, List.append_eq]
    rw [ih hw' rest (c :: acc)]
    simp

theorem splitChunks_cons_sep {c : Char} (hc : isWs c = true) (rest acc : List Char) :
    splitChunks (c :: rest) acc = acc.reverse :: splitChunks rest [] := by
  simp [splitChunks, hc]

theorem fTokens_nil : fTokens [] = [] := rfl

theorem fTokens_sep_cons {c : Char} (hc : isWs c = true) (rest : List Char) :
    fTokens (c :: rest) = fTokens rest := by
  unfold fTokens
  rw [splitChunks_cons_sep hc]
  simp

theorem fTokens_wsrun (n : Nat) (rest : List Char) :
    fTokens (List.replicate n ' ' ++ rest) = fTokens rest := by
  induction n with
  | zero => simp
  | succ k ih =>
    rw [List.replicate_succ, List.cons_append, fTokens_sep_cons (by decide)]
    exact ih

theorem fTokens_word (w : List Char) (hne : w ≠ []) (hw : ∀ c ∈ w, isWs c = false)
    {c : Char} (hc : isWs c = true) (rest : List Char) :
    fTokens (w ++ c :: rest) = w :: fTokens rest := by
  unfold fTokens
  rw [splitChunks_append_nonsep w hw, splitChunks_cons_sep hc]
  simp [isEmpty_eq_false hne]

theorem fTokens_word_end (w : List Char) (hne : w ≠ []) (hw : ∀ c ∈ w, isWs c = false) :
    fTokens w = [w] := by
  unfold fTokens
  have h := splitChunks_append_nonsep w hw [] []
  rw [List.append_nil] at h
  rw [h]
  simp [splitChunks, isEmpty_eq_false hne]

theorem fTokens_word_wsrun (w : List Char) (hne : w ≠ []) (hw : ∀ c ∈ w, isWs c = false)
    {n : Nat} (hn : n ≠ 0) (rest : List Char) :
    fTokens (w ++ (List.replicate n ' ' ++ rest)) = w :: fTokens rest := by
  cases n with
  | zero => exact absurd rfl hn
  | succ k =>
    rw [List.replicate_succ, List.cons_append, fTokens_word w hne hw (by decide), fTokens_wsrun]

theorem wsrun_merge (a b : Nat) (x : List Char) :
    List.replicate a ' ' ++ (' ' :: (List.replicate b ' ' ++ x)) = List.replicate (a + 1 + b) ' ' ++ x := by
  rw [List.replicate_add, List.replicate_add]
  simp [List.append_assoc]

@[simp] theorem data_newline : ("\n").data = [('\n' : Char)] := rfl

@[simp] theorem data_space : (" ").data = [(' ' : Char)] := rfl

@[simp] theorem data_zero_str : (("0") : String).data = [('0' : Char)] := rfl

@[simp] theorem data_one_str : (("1") : String).data = [('1' : Char)] := rfl

@[simp] theorem data_sp_one : ((" 1") : String).data = [(' ' : Char), ('1' : Char)] := rfl

/-- Tokenizing a parfile line: the padded name field contributes the name
as first token, whatever the tail is. -/
theorem fTokens_line (name pv : String) (hn : tokenOK name) (tail : List Char) :
    fTokens ((padRight 15 name ++ " " ++ padLeft 25 pv).data ++ tail) =
      name.data :: fTokens (pv.data ++ tail) := by
  have h1 : (padRight 15 name ++ " " ++ padLeft 25 pv).data ++ tail
      = name.data ++ (List.replicate ((15 - name.data.length) + 1 + (25 - pv.data.length)) ' '
          ++ (pv.data ++ tail)) := by
    rw [← wsrun_merge]
    simp [padRight, padLeft, List.append_assoc]
  rw [h1, fTokens_word_wsrun name.data hn.1 hn.2 (by omega)]

/-! ## Lemmas about `applyTail` and `from_parfile_line` -/

theorem applyTail_fields {p : Parameter} {rest : List String} {b : Bool} {p' : Parameter}
    (h : p.applyTail rest = some (b, p')) :
    p'.name = p.name ∧ p'.aliases = p.aliases ∧ p'.parse_value = p.parse_value := by
  rcases rest with _ | ⟨t2, rest2⟩
  · simp only [Parameter.applyTail, Option.some.injEq, Prod.mk.injEq] at h
    rw [← h.2]
    exact ⟨rfl, rfl, rfl⟩
  · rcases hI : pyInt t2 with _ | i
    · simp [Parameter.applyTail, hI] at h
    · rcases rest2 with _ | ⟨t3, rest3⟩
      · simp only [Parameter.applyTail, hI, Option.some.injEq, Prod.mk.injEq] at h
        rw [← h.2]
        by_cases hi : 0 < i <;> simp [hi]
      · rcases rest3 with _ | ⟨t4, rest4⟩
        · rcases hF : fortran_float t3 with _ | u
          · simp [Parameter.applyTail, hI, hF] at h
          · simp only [Parameter.applyTail, hI, hF, Option.some.injEq, Prod.mk.injEq] at h
            rw [← h.2]
            by_cases hi : 0 < i <;> simp [hi]
        · simp only [Parameter.applyTail, hI, Option.some.injEq, Prod.mk.injEq] at h
          rw [← h.2]
          by_cases hi : 0 < i <;> simp [hi]

theorem applyTail_first_eq (p q : Parameter) (rest : List String) :
    (p.applyTail rest).map (fun r => r.1) = (q.applyTail rest).map (fun r => r.1) := by
  rcases rest with _ | ⟨t2, rest2⟩
  · rfl
  · rcases hI : pyInt t2 with _ | i
    · simp [Parameter.applyTail, hI]
    · rcases rest2 with _ | ⟨t3, rest3⟩
      · simp [Parameter.applyTail, hI]
      · rcases rest3 with _ | ⟨t4, rest4⟩
        · rcases hF : fortran_float t3 with _ | u <;> simp [Parameter.applyTail, hI, hF]
        · simp [Parameter.applyTail, hI]

theorem applyTail_first_true {p : Parameter} {rest : List String} {b : Bool} {p' : Parameter}
    (h : p.applyTail rest = some (b, p')) : b = true := by
  rcases rest with _ | ⟨t2, rest2⟩
  · simp only [Parameter.applyTail, Option.some.injEq, Prod.mk.injEq] at h
    exact h.1.symm
  · rcases hI : pyInt t2 with _ | i
    · simp [Parameter.applyTail, hI] at h
    · rcases rest2 with _ | ⟨t3, rest3⟩
      · simp only [Parameter.applyTail, hI, Option.some.injEq, Prod.mk.injEq] at h
        exact h.1.symm
      · rcases rest3 with _ | ⟨t4, rest4⟩
        · rcases hF : fortran_float t3 with _ | u
          · simp [Parameter.applyTail, hI, hF] at h
          · simp only [Parameter.applyTail, hI, hF, Option.some.injEq, Prod.mk.injEq] at h
            exact h.1.symm
        · simp only [Parameter.applyTail, hI, Option.some.injEq, Prod.mk.injEq] at h
          exact h.1.symm

theorem applyTail_isSome_iff (p : Parameter) (rest : List String) :
    (∃ p', p.applyTail rest = some (true, p')) ↔ tailParsesB rest = true := by
  rcases rest with _ | ⟨t2, rest2⟩
  · simp [Parameter.applyTail, tailParsesB]
  · rcases hI : pyInt t2 with _ | i
    · simp [Parameter.applyTail, tailParsesB, hI]
    · rcases rest2 with _ | ⟨t3, rest3⟩
      · simp [Parameter.applyTail, tailParsesB, hI]
      · rcases rest3 with _ | ⟨t4, rest4⟩
        · rcases hF : fortran_float t3 with _ | u <;>
            simp [Parameter.applyTail, tailParsesB, hI, hF]
        · simp [Parameter.applyTail, tailParsesB, hI]

theorem from_parfile_line_fields {p : Parameter} {l : String} {b : Bool} {p' : Parameter}
    (h : p.from_parfile_line l = some (b, p')) :
    p'.name = p.name ∧ p'.aliases = p.aliases ∧ p'.parse_value = p.parse_value := by
  rcases hs : pySplit l with _ | ⟨t0, ts⟩
  · simp only [Parameter.from_parfile_line, hs, Option.some.injEq, Prod.mk.injEq] at h
    rw [← h.2]
    exact ⟨rfl, rfl, rfl⟩
  · by_cases hm : pyUpper t0 ≠ p.name ∧ pyUpper t0 ∉ p.aliases
    · simp only [Parameter.from_parfile_line, hs, if_pos hm, Option.some.injEq,
        Prod.mk.injEq] at h
      rw [← h.2]
      exact ⟨rfl, rfl, rfl⟩
    · rcases ts with _ | ⟨t1, rest⟩
      · simp only [Parameter.from_parfile_line, hs, if_neg hm, Option.some.injEq,
          Prod.mk.injEq] at h
        rw [← h.2]
        exact ⟨rfl, rfl, rfl⟩
      · rcases hv : p.parse_value t1 with _ | v
        · simp [Parameter.from_parfile_line, Parameter.set, hs, if_neg hm, hv] at h
        · simp only [Parameter.from_parfile_line, Parameter.set, hs, if_neg hm, hv,
            Option.map_some] at h
          have h3 := applyTail_fields h
          simpa using h3

theorem from_parfile_line_first_eq {p q : Parameter} (hn : p.name = q.name)
    (ha : p.aliases = q.aliases) (hpv : p.parse_value = q.parse_value) (l : String) :
    (p.from_parfile_line l).map (fun r => r.1) = (q.from_parfile_line l).map (fun r => r.1) := by
  rcases hs : pySplit l with _ | ⟨t0, ts⟩
  · simp [Parameter.from_parfile_line, hs]
  · by_cases hm : pyUpper t0 ≠ q.name ∧ pyUpper t0 ∉ q.aliases
    · have hm' : pyUpper t0 ≠ p.name ∧ pyUpper t0 ∉ p.aliases := by rw [hn, ha]; exact hm
      simp [Parameter.from_parfile_line, hs, if_pos hm, if_pos hm']
    · have hm' : ¬(pyUpper t0 ≠ p.name ∧ pyUpper t0 ∉ p.aliases) := by rw [hn, ha]; exact hm
      rcases ts with _ | ⟨t1, rest⟩
      · simp [Parameter.from_parfile_line, hs, if_neg hm, if_neg hm']
      · rcases hv : q.parse_value t1 with _ | v
        · have hv' : p.parse_value t1 = none := by rw [hpv]; exact hv
          simp [Parameter.from_parfile_line, Parameter.set, hs, if_neg hm, if_neg hm', hv, hv']
        · have hv' : p.parse_value t1 = some v := by rw [hpv]; exact hv
          simp only [Parameter.from_parfile_line, Parameter.set, hs, if_neg hm, if_neg hm',
            hv, hv', Option.map_some]
          exact applyTail_first_eq _ _ rest

/-- A claimed line: name/alias match, a second token that parses, and the
resulting call to `applyTail`. -/
theorem from_parfile_line_eq_applyTail {p : Parameter} {l t0 t1 : String} {rest : List String}
    (hs : pySplit l = t0 :: t1 :: rest)
    (hm : ¬(pyUpper t0 ≠ p.name ∧ pyUpper t0 ∉ p.aliases))
    {v : Val} (hv : p.parse_value t1 = some v) :
    p.from_parfile_line l = Parameter.applyTail { p with value := some v } rest := by
  simp [Parameter.from_parfile_line, Parameter.set, hs, if_neg hm, hv]

/-! ## Association list lemmas -/

theorem dictGet_setAttr_self {β : Type} (d : List (String × β)) (k : String) (v : β)
    (h : (dictGet d k).isSome) : dictGet (setAttr d k v) k = some v := by
  induction d with
  | nil => simp [dictGet] at h
  | cons kv rest ih =>
    simp only [setAttr, List.map_cons] at ih ⊢
    by_cases hk : kv.1 = k
    · simp [dictGet, hk]
    · simp only [dictGet, hk, if_false] at h ⊢
      exact ih h

theorem dictGet_setAttr_ne {β : Type} (d : List (String × β)) (k k' : String) (v : β)
    (h : k' ≠ k) : dictGet (setAttr d k v) k' = dictGet d k' := by
  induction d with
  | nil => rfl
  | cons kv rest ih =>
    simp only [setAttr, List.map_cons] at ih ⊢
    by_cases hk : kv.1 = k
    · rw [if_pos hk]
      simp only [dictGet, hk, Ne.symm h, if_false]
      exact ih
    · rw [if_neg hk]
      by_cases hk' : kv.1 = k' <;> simp [dictGet, hk', ih]

theorem dictGet_eq_none_of_any_false {β : Type} {d : List (String × β)} {k : String}
    (h : d.any (fun kv => kv.1 == k) = false) : dictGet d k = none := by
  induction d with
  | nil => rfl
  | cons kv rest ih =>
    simp only [List.any_cons, Bool.or_eq_false_iff] at h
    have hk : ¬kv.1 = k := by simpa using h.1
    simp [dictGet, hk, ih h.2]

theorem dictGet_append {β : Type} (d e : List (String × β)) (k : String) :
    dictGet (d ++ e) k = match dictGet d k with | some v => some v | none => dictGet e k := by
  induction d with
  | nil => rfl
  | cons kv rest ih =>
    by_cases hk : kv.1 = k
    · simp [dictGet, hk]
    · simp [dictGet, hk, ih]

/-! ## State-similarity machinery for the `read_parfile` loop -/

/-- The fields of a parameter that determine whether it claims a line
(`from_parfile_line` reads, but never writes, these). -/
def simP (p q : Parameter) : Prop :=
  p.name = q.name ∧ p.aliases = q.aliases ∧ p.parse_value = q.parse_value

/-- `simP` lifted to optional lookups. -/
def optSimP : Option Parameter → Option Parameter → Prop
  | some p, some q => simP p q
  | none, none => True
  | _, _ => False

/-- Models with the same registration data: identical ordered parameter
name sequence and attribute-wise claim-equivalent parameters. -/
def simM (m m₀ : TimingModel τ) : Prop :=
  m.params = m₀.params ∧
    ∀ par, optSimP (dictGet m.paramAttrs par) (dictGet m₀.paramAttrs par)

theorem optMapSome {α β : Type _} (f : α → β) (a : α) : (some a).map f = some (f a) := rfl

theorem optSomeBind {α β : Type _} (a : α) (f : α → Option β) : (some a >>= f) = f a := rfl

theorem simP_refl (p : Parameter) : simP p p := ⟨rfl, rfl, rfl⟩

theorem simP_trans {p q r : Parameter} (h1 : simP p q) (h2 : simP q r) : simP p r :=
  ⟨h1.1.trans h2.1, h1.2.1.trans h2.2.1, h1.2.2.trans h2.2.2⟩

theorem simM_refl (m : TimingModel τ) : simM m m := by
  refine ⟨rfl, fun par => ?_⟩
  cases dictGet m.paramAttrs par with
  | none => trivial
  | some p => exact simP_refl p

theorem offerFold_sim {m₀ mc : TimingModel τ} (hs : simM mc m₀) (l par : String)
    {bacc : Bool} {out : TimingModel τ × Bool}
    (h : offerFold l (mc, bacc) par = some out) :
    simM out.1 m₀ ∧ out.2 = (bacc || pclaimsAt m₀ par l) := by
  rcases hg : dictGet mc.paramAttrs par with _ | p
  · simp [offerFold, hg] at h
  · have hopt := hs.2 par
    rw [hg] at hopt
    rcases hg0 : dictGet m₀.paramAttrs par with _ | p₀
    · rw [hg0] at hopt
      exact absurd hopt (by simp [optSimP])
    · rw [hg0] at hopt
      have hsp : simP p p₀ := hopt
      rcases hf : p.from_parfile_line l with _ | bp
      · simp [offerFold, hg, hf] at h
      · simp only [offerFold, hg, hf, Option.some.injEq] at h
        have hmap := from_parfile_line_first_eq hsp.1 hsp.2.1 hsp.2.2 l
        rw [hf] at hmap
        rcases hf0 : p₀.from_parfile_line l with _ | bq
        · rw [hf0] at hmap
          simp at hmap
        · rw [hf0] at hmap
          rw [optMapSome, optMapSome] at hmap
          simp only [Option.some.injEq] at hmap
          have hclaims : pclaimsAt m₀ par l = bp.1 := by
            simp only [pclaimsAt, hg0, hf0]
            exact hmap.symm
          rw [← h]
          constructor
          · refine ⟨hs.1, fun par' => ?_⟩
            by_cases hpar : par' = par
            · subst hpar
              rw [dictGet_setAttr_self _ _ _ (by rw [hg]; rfl), hg0]
              have hf2 : p.from_parfile_line l = some (bp.1, bp.2) := by rw [hf]
              exact simP_trans (from_parfile_line_fields hf2) hsp
            · rw [dictGet_setAttr_ne _ _ _ _ hpar]
              exact hs.2 par'
          · rw [hclaims]

theorem foldlM_offer_sim {m₀ : TimingModel τ} (l : String) :
    ∀ (ps : List String) (mc : TimingModel τ) (bacc : Bool) (out : TimingModel τ × Bool),
      simM mc m₀ →
      List.foldlM (offerFold l) (mc, bacc) ps = some out →
      simM out.1 m₀ ∧ out.2 = (bacc || ps.any (fun par => pclaimsAt m₀ par l)) := by
  intro ps
  induction ps with
  | nil =>
    intro mc bacc out hs h
    simp only [List.foldlM_nil, pure, Option.some.injEq] at h
    rw [← h]
    exact ⟨hs, by simp⟩
  | cons par ps ih =>
    intro mc bacc out hs h
    rw [List.foldlM_cons] at h
    rcases hstep : offerFold l (mc, bacc) par with _ | acc1
    · rw [hstep] at h
      simp at h
    · rw [hstep] at h
      rw [optSomeBind] at h
      obtain ⟨hsim1, hb1⟩ := offerFold_sim hs l par hstep
      obtain ⟨ho, hb⟩ := ih acc1.1 acc1.2 out hsim1 h
      refine ⟨ho, ?_⟩
      rw [hb, hb1]
      simp [Bool.or_assoc]

theorem offer_line_sim {m m₀ : TimingModel τ} (hs : simM m m₀) {l : String}
    {out : TimingModel τ × Bool} (h : offer_line m l = some out) :
    simM out.1 m₀ ∧ out.2 = anyClaims m₀ l := by
  unfold offer_line at h
  have hgo := foldlM_offer_sim l m.params m false out hs h
  rw [hs.1] at hgo
  exact ⟨hgo.1, by rw [hgo.2]; simp [anyClaims]⟩

theorem read_lines_count {m₀ : TimingModel τ} :
    ∀ (lines : List String) (mc : TimingModel τ) (w0 : Nat) (out : TimingModel τ × Nat),
      simM mc m₀ →
      List.foldlM lineStep (mc, w0) lines = some out →
      simM out.1 m₀ ∧
        out.2 = w0 + (keptLines lines).countP (fun l => !(anyClaims m₀ l)) := by
  intro lines
  induction lines with
  | nil =>
    intro mc w0 out hs h
    simp only [List.foldlM_nil, pure, Option.some.injEq] at h
    rw [← h]
    exact ⟨hs, by simp [keptLines]⟩
  | cons raw rest ih =>
    intro mc w0 out hs h
    rw [List.foldlM_cons] at h
    by_cases hblank : pyStrip raw = ""
    · have hstep : lineStep (mc, w0) raw = some (mc, w0) := by simp [lineStep, hblank]
      rw [hstep] at h
      rw [optSomeBind] at h
      have hk : keptLines (raw :: rest) = keptLines rest := by simp [keptLines, hblank]
      rw [hk]
      exact ih mc w0 out hs h
    · by_cases hhash : startsHash (pyStrip raw) = true
      · have hstep : lineStep (mc, w0) raw = some (mc, w0) := by
          simp [lineStep, hblank, hhash]
        rw [hstep] at h
        rw [optSomeBind] at h
        have hk : keptLines (raw :: rest) = keptLines rest := by
          simp [keptLines, hblank, hhash]
        rw [hk]
        exact ih mc w0 out hs h
      · have hkept : keptLines (raw :: rest) = pyStrip raw :: keptLines rest := by
          simp [keptLines, hblank, hhash]
        rcases hof : offer_line mc (pyStrip raw) with _ | mp
        · have hstep : lineStep (mc, w0) raw = none := by simp [lineStep, hblank, hhash, hof]
          rw [hstep] at h
          simp at h
        · have hstep : lineStep (mc, w0) raw = some (mp.1, if mp.2 then w0 else w0 + 1) := by
            simp [lineStep, hblank, hhash, hof]
          rw [hstep] at h
          rw [optSomeBind] at h
          obtain ⟨hsim1, hb1⟩ := offer_line_sim hs hof
          obtain ⟨hsimo, hw⟩ := ih mp.1 (if mp.2 then w0 else w0 + 1) out hsim1 h
          refine ⟨hsimo, ?_⟩
          rw [hw, hkept, List.countP_cons, hb1]
          by_cases hcl : anyClaims m₀ (pyStrip raw) = true <;> simp [hcl] <;> omega

theorem read_lines_eq_kept :
    ∀ (lines : List String) (acc : TimingModel τ × Nat),
      List.foldlM lineStep acc lines = List.foldlM procLine acc (keptLines lines) := by
  intro lines
  induction lines with
  | nil => intro acc; rfl
  | cons raw rest ih =>
    intro acc
    rw [List.foldlM_cons]
    by_cases hblank : pyStrip raw = ""
    · have hstep : lineStep acc raw = some acc := by simp [lineStep, hblank]
      rw [hstep]
      rw [optSomeBind]
      rw [ih]
      congr 1
      simp [keptLines, hblank]
    · by_cases hhash : startsHash (pyStrip raw) = true
      · have hstep : lineStep acc raw = some acc := by simp [lineStep, hblank, hhash]
        rw [hstep]
        rw [optSomeBind]
        rw [ih]
        congr 1
        simp [keptLines, hblank, hhash]
      · have hkept : keptLines (raw :: rest) = pyStrip raw :: keptLines rest := by
          simp [keptLines, hblank, hhash]
        rw [hkept, List.foldlM_cons]
        have hstep : lineStep acc raw = procLine acc (pyStrip raw) := by
          simp [lineStep, procLine, hblank, hhash]
        rw [hstep]
        rcases hp : procLine acc (pyStrip raw) with _ | acc1
        · simp
        · rw [optSomeBind]
          exact ih acc1

/-! ## Sum lemma for delay-style accumulation -/

theorem foldl_add_eq_sum {α : Type} (g : α → ℚ) (l : List α) :
    ∀ c : ℚ, l.foldl (fun acc x => acc + g x) c = c + (l.map g).sum := by
  induction l with
  | nil => intro c; simp
  | cons a l ih => intro c; simp [ih, add_assoc]

/-! ## Claim C2 -/

/-- C2: `as_parfile_line` returns the empty string when the value is null;
otherwise it emits the (padded) name and printed value followed by: with
uncertainty set, a fit flag (`0` when frozen, `1` when not) and the printed
uncertainty; with uncertainty unset and the parameter not frozen, the fit
flag `1` alone; with uncertainty unset and the parameter frozen, no
trailing fields (only the terminating newline). -/
theorem as_parfile_line_format (p : Parameter) :
    (p.value = none → p.as_parfile_line = "") ∧
    (∀ v, p.value = some v →
      p.as_parfile_line =
        padRight 15 p.name ++ " " ++ padLeft 25 (p.print_value v) ++
          (match p.uncertainty with
           | some u => " " ++ (if p.frozen then ("0") else ("1")) ++ " " ++ pyStr u
           | none => if p.frozen then ("") else (" 1")) ++ "\n") := by
  constructor
  · intro h
    simp [Parameter.as_parfile_line, h]
  · intro v hv
    rcases hu : p.uncertainty with _ | u
    · by_cases hf : p.frozen = true
      · simp [Parameter.as_parfile_line, hv, hu, hf]
      · simp [Parameter.as_parfile_line, hv, hu, hf]
    · simp [Parameter.as_parfile_line, hv, hu, String.append_assoc]

/-- Witness for C2 at a concrete fully-specified parameter. -/
theorem as_parfile_line_format_witness :
    F0full.as_parfile_line = ("F0                                    100 1 0.0001\n") := by
  have h := (as_parfile_line_format F0full).2 (Val.num (mkRat 100 1)) rfl
  rw [h]
  decide

/-! ## Claim C8 -/

/-- C8: `delay` over zero registered delay component functions returns the
additive identity, and in general equals the sum of the independent
contributions of the registered functions at the same TOA. -/
theorem delay_additive (m : TimingModel τ) (toa : τ) :
    TimingModel.delay { m with delay_funcs := [] } toa = 0 ∧
    m.delay toa = (m.delay_funcs.map (fun f => f toa)).sum := by
  refine ⟨rfl, ?_⟩
  show List.foldl (fun acc df => acc + df toa) 0 m.delay_funcs = _
  exact (foldl_add_eq_sum (fun f => f toa) m.delay_funcs 0).trans (zero_add _)

/-! ## Claim C6 -/

/-- C6 counterexample: a registered but non-continuous parameter has no
entry in the delay-derivative mapping, so `d_delay_d_param` raises
`KeyError` (models: returns `none`) instead of returning zero. -/
theorem d_delay_d_param_keyerror :
    ("F1") ∈ mC6.params ∧ mC6.d_delay_d_param () ("F1") = none := by
  constructor
  · decide
  · rfl

/-- C6 amended: for a parameter name that is a key of the delay-derivative
mapping, `d_delay_d_param` returns the sum of the registered providers'
contributions (zero for an empty provider list); for a name that is not a
key (e.g. a non-continuous parameter), the subscript raises `KeyError`. -/
theorem d_delay_d_param_spec (m : TimingModel τ) (toa : τ) (par : String) :
    (dictGet m.delay_derivs par = none → m.d_delay_d_param toa par = none) ∧
    (∀ fs, dictGet m.delay_derivs par = some fs →
      m.d_delay_d_param toa par = some ((fs.map (fun f => f toa)).sum)) ∧
    (dictGet m.delay_derivs par = some [] → m.d_delay_d_param toa par = some 0) := by
  refine ⟨?_, ?_, ?_⟩
  · intro h
    simp [TimingModel.d_delay_d_param, h]
  · intro fs h
    simp only [TimingModel.d_delay_d_param, h]
    exact congrArg some ((foldl_add_eq_sum (fun f => f toa) fs 0).trans (zero_add _))
  · intro h
    simp [TimingModel.d_delay_d_param, h]

/-- Witness for C6 (amended) at the built-in continuous `PSR` parameter. -/
theorem d_delay_d_param_spec_witness :
    (TimingModel.init Unit).d_delay_d_param () ("PSR") = some 0 :=
  (d_delay_d_param_spec (TimingModel.init Unit) () ("PSR")).2.2 rfl

/-! ## Claim C5 -/

/-- C5 counterexample: registering a parameter whose name equals an
existing parameter's alias (`PSRJ` is an alias of the built-in `PSR`)
succeeds instead of raising `DuplicateParameter` — the duplicate check is
attribute-based and never inspects aliases. -/
theorem add_param_alias_collision_not_detected :
    ("PSRJ") ∈ PSRparam.aliases ∧
    (match (TimingModel.init Unit).add_param pPSRJ with
     | .ok m => m.params
     | .error _ => []) = [("PSR"), ("PSRJ")] := by
  constructor
  · decide
  · rfl

/-- C5 amended: `add_param` raises `DuplicateParameter` carrying the name
when a parameter of that name is already registered (alias collisions are
not detected); on success the name is appended to the ordered sequence,
the parameter becomes reachable by name, and exactly when `continuous` is
true an empty provider list is appended for it in both derivative
mappings.  (The error case returns no model: the model value is untouched.) -/
theorem add_param_spec (m : TimingModel τ) (p : Parameter) :
    ((∃ q, (p.name, q) ∈ m.paramAttrs) →
      m.add_param p = Except.error { param := p.name, msg := none }) ∧
    (m.hasAttr p.name = false →
      ∃ m', m.add_param p = Except.ok m' ∧
        m'.params = m.params ++ [p.name] ∧
        dictGet m'.paramAttrs p.name = some p ∧
        m'.delay_derivs =
          (if p.continuous then m.delay_derivs ++ [(p.name, [])] else m.delay_derivs) ∧
        m'.phase_derivs =
          (if p.continuous then m.phase_derivs ++ [(p.name, [])] else m.phase_derivs)) := by
  constructor
  · rintro ⟨q, hq⟩
    have hattr : m.hasAttr p.name = true := by
      unfold TimingModel.hasAttr
      have hany : m.paramAttrs.any (fun kv => kv.1 == p.name) = true := by
        rw [List.any_eq_true]
        exact ⟨(p.name, q), hq, by simp⟩
      simp [hany]
    simp [TimingModel.add_param, hattr]
  · intro hattr
    have hany : m.paramAttrs.any (fun kv => kv.1 == p.name) = false := by
      have h2 := hattr
      unfold TimingModel.hasAttr at h2
      simp only [Bool.or_eq_false_iff] at h2
      exact h2.2
    have hnone : dictGet m.paramAttrs p.name = none := dictGet_eq_none_of_any_false hany
    refine ⟨{ m with
        paramAttrs := m.paramAttrs ++ [(p.name, p)],
        params := m.params ++ [p.name],
        delay_derivs := if p.continuous then m.delay_derivs ++ [(p.name, [])] else m.delay_derivs,
        phase_derivs := if p.continuous then m.phase_derivs ++ [(p.name, [])] else m.phase_derivs },
      by simp [TimingModel.add_param, hattr], rfl, ?_, rfl, rfl⟩
    rw [dictGet_append, hnone]
    simp [dictGet]

/-- Witness for C5 (amended): a duplicate `PSR` is rejected with the name,
and a fresh `F2` registers successfully. -/
theorem add_param_spec_witness :
    (TimingModel.init Unit).add_param pPSR2 =
        Except.error { param := ("PSR"), msg := none } ∧
    (∃ m', (TimingModel.init Unit).add_param pF2 = Except.ok m' ∧
        m'.params = [("PSR"), ("F2")]) := by
  constructor
  · refine (add_param_spec (TimingModel.init Unit) pPSR2).1 ⟨PSRparam, ?_⟩
    show ("PSR", PSRparam) ∈ (TimingModel.init Unit).paramAttrs
    have hattrs : (TimingModel.init Unit).paramAttrs = [(("PSR"), PSRparam)] := rfl
    rw [hattrs]
    exact List.mem_singleton.mpr rfl
  · obtain ⟨m', hok, hparams, -, -, -⟩ :=
      (add_param_spec (TimingModel.init Unit) pF2).2 (by decide)
    refine ⟨m', hok, ?_⟩
    rw [hparams]
    rfl

/-! ## Claim C3 -/

/-- C3 counterexample: on a five-token line the fourth token (`0.5`) is
present, yet `len(k)==4` fails and the uncertainty is not stored, while
the line is still claimed. -/
theorem fourth_token_ignored_on_long_line :
    (F0test.from_parfile_line ("F0 100.0 1 0.5 9")).map
        (fun r => (r.1, r.2.uncertainty, r.2.frozen)) = some (true, none, false) := by
  decide

/-- C3 amended: on a claimed line the second token is parsed into the
value via `set`; a third token parsed as an integer clears `frozen` when
positive and leaves it at its prior value otherwise; the fourth token is
parsed with `fortran_float` and stored as uncertainty only when the line
has exactly four tokens (with five or more tokens it is ignored and the
uncertainty is left unchanged); the call returns `True`. -/
theorem from_parfile_line_claimed_effects (p : Parameter) (line t0 t1 : String)
    (rest : List String) (v : Val)
    (hsplit : pySplit line = t0 :: t1 :: rest)
    (hmatch : ¬(pyUpper t0 ≠ p.name ∧ pyUpper t0 ∉ p.aliases))
    (hv : p.parse_value t1 = some v)
    (hflag : ∀ t2 rest2, rest = t2 :: rest2 → (pyInt t2).isSome = true)
    (hunc : ∀ t2 t3, rest = [t2, t3] → (fortran_float t3).isSome = true) :
    ∃ p', p.from_parfile_line line = some (true, p') ∧
      p'.value = some v ∧
      (rest = [] → p'.frozen = p.frozen ∧ p'.uncertainty = p.uncertainty) ∧
      (∀ t2 rest2 i, rest = t2 :: rest2 → pyInt t2 = some i →
        p'.frozen = (if 0 < i then false else p.frozen)) ∧
      (∀ t2 t3 u, rest = [t2, t3] → fortran_float t3 = some u →
        p'.uncertainty = some (Val.num u)) ∧
      (∀ t2 rest2, rest = t2 :: rest2 → (∀ t3, rest2 ≠ [t3]) →
        p'.uncertainty = p.uncertainty) := by
  have heq := from_parfile_line_eq_applyTail hsplit hmatch hv
  rcases rest with _ | ⟨t2, rest2⟩
  · refine ⟨{ p with value := some v }, ?_, rfl, fun _ => ⟨rfl, rfl⟩, ?_, ?_, ?_⟩
    · rw [heq]
      rfl
    · intro a b i hcon
      exact absurd hcon (by simp)
    · intro a b u hcon
      exact absurd hcon (by simp)
    · intro a b hcon
      exact absurd hcon (by simp)
  · obtain ⟨i, hi⟩ := Option.isSome_iff_exists.mp (hflag t2 rest2 rfl)
    rcases rest2 with _ | ⟨t3, rest3⟩
    · refine ⟨if 0 < i then { p with value := some v, frozen := false }
          else { p with value := some v }, ?_, ?_, ?_, ?_, ?_, ?_⟩
      · rw [heq]
        by_cases hi0 : 0 < i <;> simp [Parameter.applyTail, hi, hi0]
      · by_cases hi0 : 0 < i <;> simp [hi0]
      · intro hcon
        exact absurd hcon (by simp)
      · intro a b i' hcon hpi
        obtain ⟨rfl, rfl⟩ := List.cons.inj hcon
        rw [hi] at hpi
        obtain rfl := Option.some.inj hpi
        by_cases hi0 : 0 < i <;> simp [hi0]
      · intro a b u hcon
        exact absurd hcon (by simp)
      · intro a b hcon hne
        by_cases hi0 : 0 < i <;> simp [hi0]
    · rcases rest3 with _ | ⟨t4, rest4⟩
      · obtain ⟨u, hu⟩ := Option.isSome_iff_exists.mp (hunc t2 t3 rfl)
        refine ⟨{ (if 0 < i then { p with value := some v, frozen := false }
              else { p with value := some v }) with uncertainty := some (Val.num u) },
            ?_, ?_, ?_, ?_, ?_, ?_⟩
        · rw [heq]
          by_cases hi0 : 0 < i <;> simp [Parameter.applyTail, hi, hi0, hu]
        · by_cases hi0 : 0 < i <;> simp [hi0]
        · intro hcon
          exact absurd hcon (by simp)
        · intro a b i' hcon hpi
          obtain ⟨rfl, rfl⟩ := List.cons.inj hcon
          rw [hi] at hpi
          obtain rfl := Option.some.inj hpi
          by_cases hi0 : 0 < i <;> simp [hi0]
        · intro a b u' hcon hu'
          obtain ⟨rfl, hcon2⟩ := List.cons.inj hcon
          obtain ⟨rfl, -⟩ := List.cons.inj hcon2
          rw [hu] at hu'
          obtain rfl := Option.some.inj hu'
          rfl
        · intro a b hcon hne
          obtain ⟨rfl, rfl⟩ := List.cons.inj hcon
          exact absurd rfl (hne t3)
      · refine ⟨if 0 < i then { p with value := some v, frozen := false }
            else { p with value := some v }, ?_, ?_, ?_, ?_, ?_, ?_⟩
        · rw [heq]
          by_cases hi0 : 0 < i <;> simp [Parameter.applyTail, hi, hi0]
        · by_cases hi0 : 0 < i <;> simp [hi0]
        · intro hcon
          exact absurd hcon (by simp)
        · intro a b i' hcon hpi
          obtain ⟨rfl, rfl⟩ := List.cons.inj hcon
          rw [hi] at hpi
          obtain rfl := Option.some.inj hpi
          by_cases hi0 : 0 < i <;> simp [hi0]
        · intro a b u hcon
          exact absurd hcon (by simp)
        · intro a b hcon hne
          by_cases hi0 : 0 < i <;> simp [hi0]

/-- Witness for C3 (amended) at a concrete four-token line. -/
theorem from_parfile_line_claimed_effects_witness :
    (F0test.from_parfile_line ("F0 2.5 1 0.125")).map
        (fun r => (r.1, r.2.value, r.2.frozen, r.2.uncertainty)) =
      some (true, some (Val.num (mkRat 5 2)), false, some (Val.num (mkRat 1 8))) := by
  obtain ⟨p', h1, h2, h3, h4, h5, h6⟩ :=
    from_parfile_line_claimed_effects F0test ("F0 2.5 1 0.125") ("F0") ("2.5")
      [("1"), ("0.125")] (Val.num (mkRat 5 2)) (by decide) (by decide) (by decide)
      (by intro a b h; obtain ⟨rfl, rfl⟩ := List.cons.inj h; decide)
      (by intro a b h
          obtain ⟨rfl, h2⟩ := List.cons.inj h
          obtain ⟨rfl, -⟩ := List.cons.inj h2
          decide)
  have hf := h4 ("1") [("0.125")] 1 rfl (by decide)
  have hu := h5 ("1") ("0.125") (mkRat 1 8) rfl (by decide)
  rw [h1, optMapSome]
  simp only [hf] at *
  simp [h2, hu, hf]

/-! ## Claim C4 -/

/-- C4 counterexample: with a matching name and two tokens whose second
token the configured parser rejects, the call raises the parse error
(models: `none`) instead of returning `False` as the claim's "every other
case" requires. -/
theorem from_parfile_line_parse_error_raises :
    F0test.from_parfile_line ("F0 abc") = none := by rfl

/-- C4 amended: `from_parfile_line` returns `False` without side effects
exactly in the early cases (no tokens, first token matching neither name
nor aliases, or a single token); it returns `True` exactly when the first
token matches, a second token exists, the configured parser accepts it,
and the remaining tokens parse (third as `int`; fourth via `fortran_float`
when the line has exactly four tokens) — otherwise a parser exception
propagates; and a line matched through an alias behaves identically to the
same line matched through the name. -/
theorem from_parfile_line_claim_characterization :
    (∀ (p : Parameter) (line : String), notClaimedCond p line = true →
      p.from_parfile_line line = some (false, p)) ∧
    (∀ (p : Parameter) (line : String),
      (p.from_parfile_line line).map (fun r => r.1) = some true ↔
        ∃ t0 t1 rest, pySplit line = t0 :: t1 :: rest ∧
          ¬(pyUpper t0 ≠ p.name ∧ pyUpper t0 ∉ p.aliases) ∧
          (p.parse_value t1).isSome = true ∧ tailParsesB rest = true) ∧
    (∀ (p : Parameter) (l1 l2 t0 t0' : String) (ts : List String),
      pySplit l1 = t0 :: ts → pySplit l2 = t0' :: ts →
      ¬(pyUpper t0 ≠ p.name ∧ pyUpper t0 ∉ p.aliases) →
      ¬(pyUpper t0' ≠ p.name ∧ pyUpper t0' ∉ p.aliases) →
      p.from_parfile_line l1 = p.from_parfile_line l2) := by
  refine ⟨?_, ?_, ?_⟩
  · intro p line h
    rcases hs : pySplit line with _ | ⟨t0, ts⟩
    · simp [Parameter.from_parfile_line, hs]
    · simp only [notClaimedCond, hs, Bool.or_eq_true] at h
      rcases h with h | h
      · have hm : pyUpper t0 ≠ p.name ∧ pyUpper t0 ∉ p.aliases := of_decide_eq_true h
        simp [Parameter.from_parfile_line, hs, if_pos hm]
      · rcases ts with _ | ⟨t1, rest⟩
        · by_cases hm : pyUpper t0 ≠ p.name ∧ pyUpper t0 ∉ p.aliases <;>
            simp [Parameter.from_parfile_line, hs, hm]
        · simp [List.isEmpty] at h
  · intro p line
    constructor
    · intro h
      rcases hs : pySplit line with _ | ⟨t0, ts⟩
      · simp [Parameter.from_parfile_line, hs] at h
      · by_cases hm : pyUpper t0 ≠ p.name ∧ pyUpper t0 ∉ p.aliases
        · simp [Parameter.from_parfile_line, hs, if_pos hm] at h
        · rcases ts with _ | ⟨t1, rest⟩
          · simp [Parameter.from_parfile_line, hs, if_neg hm] at h
          · rcases hv : p.parse_value t1 with _ | v
            · simp [Parameter.from_parfile_line, Parameter.set, hs, if_neg hm, hv] at h
            · refine ⟨t0, t1, rest, rfl, hm, by simp [hv], ?_⟩
              have heq := from_parfile_line_eq_applyTail hs hm hv
              rw [heq] at h
              rcases ha : Parameter.applyTail { p with value := some v } rest with _ | ⟨b, p'⟩
              · rw [ha] at h
                simp at h
              · rw [ha] at h
                rw [optMapSome] at h
                have hb : b = true := by simpa using h
                subst hb
                exact (applyTail_isSome_iff _ rest).mp ⟨p', ha⟩
    · rintro ⟨t0, t1, rest, hs, hm, hv, ht⟩
      obtain ⟨v, hv'⟩ := Option.isSome_iff_exists.mp hv
      have heq := from_parfile_line_eq_applyTail hs hm hv'
      obtain ⟨p', hp'⟩ := (applyTail_isSome_iff _ rest).mpr ht
      rw [heq, hp']
      rfl
  · intro p l1 l2 t0 t0' ts hs1 hs2 hm1 hm2
    rcases ts with _ | ⟨t1, rest⟩
    · simp [Parameter.from_parfile_line, hs1, hs2, if_neg hm1, if_neg hm2]
    · rcases hv : p.parse_value t1 with _ | v
      · simp [Parameter.from_parfile_line, Parameter.set, hs1, hs2, if_neg hm1, if_neg hm2, hv]
      · rw [from_parfile_line_eq_applyTail hs1 hm1 hv, from_parfile_line_eq_applyTail hs2 hm2 hv]

/-- Witness for C4 (amended): a name-only line is rejected without side
effects; an alias-matched line behaves identically to the name-matched
line; a well-formed matched line is claimed. -/
theorem from_parfile_line_claim_characterization_witness :
    PSRparam.from_parfile_line ("PSR") = some (false, PSRparam) ∧
    PSRparam.from_parfile_line ("PSRJ J1234+1234") =
      PSRparam.from_parfile_line ("PSR J1234+1234") ∧
    (PSRparam.from_parfile_line ("PSR J1234+1234")).map (fun r => r.1) = some true := by
  refine ⟨?_, ?_, ?_⟩
  · exact from_parfile_line_claim_characterization.1 PSRparam ("PSR") (by decide)
  · exact from_parfile_line_claim_characterization.2.2 PSRparam ("PSRJ J1234+1234")
      ("PSR J1234+1234") ("PSRJ") ("PSR") [("J1234+1234")]
      (by decide) (by decide) (by decide) (by decide)
  · exact (from_parfile_line_claim_characterization.2.1 PSRparam ("PSR J1234+1234")).mpr
      ⟨("PSR"), ("J1234+1234"), [], by decide, by decide, by decide, by decide⟩

/-! ## Claim C10 -/

/-- C10: `add_param`'s duplicate check is `hasattr`, so a parameter whose
name equals any pre-existing model attribute (`params`, `delay_funcs`,
`setup`, `delay`, `phase`, ...) is rejected with `DuplicateParameter` on
every model, even though no parameter of that name was ever registered —
such names can never be registered. -/
theorem add_param_builtin_attr_collision (m : TimingModel τ) (p : Parameter)
    (h : p.name ∈ builtinAttrs) :
    m.add_param p = Except.error { param := p.name, msg := none } := by
  have hattr : m.hasAttr p.name = true := by
    unfold TimingModel.hasAttr
    simp only [Bool.or_eq_true]
    exact Or.inl (List.elem_iff.mpr h)
  simp [TimingModel.add_param, hattr]

/-- Witness for C10: the name `params` collides with a built-in attribute
of a freshly initialized model although no such parameter is registered. -/
theorem add_param_builtin_attr_collision_witness :
    (TimingModel.init Unit).add_param pParamsName =
        Except.error { param := ("params"), msg := none } ∧
    ("params") ∉ (TimingModel.init Unit).params := by
  constructor
  · exact add_param_builtin_attr_collision (TimingModel.init Unit) pParamsName (by decide)
  · decide

/-! ## Claim C7 -/

/-- C7 counterexample: a claimed line whose fit-flag token is not an
integer raises mid-read, so processing aborts before the remaining lines
are consumed and `setup` is never invoked (the marking `setup` function is
never applied; the whole read is the exceptional result). -/
theorem read_parfile_exception_skips_setup :
    read_parfile (fun m => { m with params := m.params ++ [("SETUP_RAN")] })
      (TimingModel.init Unit) [("PSR J1 x")] = none := by rfl

/-- C7 amended: when `read_parfile` completes normally it is the
processing, in order, of exactly the kept lines (stripped lines that are
neither blank nor `#`-comments), each offered to every registered
parameter in registration order via `offer_line`; the warning count equals
the number of kept lines claimed by no registered parameter; and `setup`
is applied exactly once, to the final model state, after all lines are
consumed.  (When a parser exception escapes, the read aborts without
running `setup`.) -/
theorem read_parfile_spec (doSetup : TimingModel τ → TimingModel τ)
    (m : TimingModel τ) (lines : List String) (mfin : TimingModel τ) (w : Nat)
    (h : read_parfile doSetup m lines = some (mfin, w)) :
    read_parfile_lines m lines = (keptLines lines).foldlM procLine (m, 0) ∧
    (∃ m', read_parfile_lines m lines = some (m', w) ∧ mfin = doSetup m') ∧
    w = (keptLines lines).countP (fun l => !(anyClaims m l)) := by
  rcases hr : read_parfile_lines m lines with _ | mw
  · simp [read_parfile, hr] at h
  · simp only [read_parfile, hr, Option.some.injEq, Prod.mk.injEq] at h
    refine ⟨?_, ⟨mw.1, ?_, h.1.symm⟩, ?_⟩
    · rw [← hr]
      exact read_lines_eq_kept lines (m, 0)
    · rw [← h.2]
    · have hc := read_lines_count lines m 0 mw (simM_refl m) hr
      rw [← h.2, hc.2]
      simp

/-- Witness for C7 (amended): over `linesC7` the comment and the blank
line are skipped, the `PSR` line is claimed, the `FOO` line is not, and
the warning count is exactly one. -/
theorem read_parfile_spec_witness :
    (keptLines linesC7).countP (fun l => !(anyClaims (TimingModel.init Unit) l)) = 1 := by
  have h : read_parfile id (TimingModel.init Unit) linesC7 = some (mC7res, 1) := rfl
  exact ((read_parfile_spec id (TimingModel.init Unit) linesC7 mC7res 1 h).2.2).symm

/-! ## Claim C9 -/

/-- Accessing index 0 of a list updated at index 0. -/
theorem getD_set_zero {α : Type} (l : List α) (x d : α) (h : 0 < l.length) :
    (l.set 0 x).getD 0 d = x := by
  cases l with
  | nil => simp at h
  | cons a t => rfl

/-- C9: two parameters constructed without an explicit `aliases` argument
reference the single default list object, so `add_alias` on the first
changes the alias list the second one sees: a line whose first token is
the new alias, previously not claimed by the second parameter, becomes
claimed by it although no call was made on it. -/
theorem default_aliases_shared
    (store0 : AliasStore) (h0 : 0 < store0.cells.length)
    (b1 b2 : Parameter) (a line t0 t1 : String)
    (s1 s2 s3 : AliasStore) (p1 p2 : PRef)
    (hs1 : mkParameterRef store0 b1 none = (s1, p1))
    (hs2 : mkParameterRef s1 b2 none = (s2, p2))
    (hs3 : PRef.add_alias s2 p1 a = s3)
    (hsplit : pySplit line = [t0, t1])
    (ht0 : pyUpper t0 = a)
    (hneq : pyUpper t0 ≠ b2.name)
    (hnotin : pyUpper t0 ∉ store0.cells.getD 0 [])
    (hv : (b2.parse_value t1).isSome = true) :
    (resolveP s3 p2).aliases = store0.cells.getD 0 [] ++ [a] ∧
    (resolveP s3 p1).aliases = (resolveP s3 p2).aliases ∧
    (resolveP s2 p2).from_parfile_line line = some (false, resolveP s2 p2) ∧
    ((resolveP s3 p2).from_parfile_line line).map (fun r => r.1) = some true := by
  simp only [mkParameterRef] at hs1 hs2
  obtain ⟨rfl, rfl⟩ := Prod.mk.inj hs1
  obtain ⟨rfl, rfl⟩ := Prod.mk.inj hs2
  subst hs3
  have hcell : (PRef.add_alias store0 { base := b1, aliasesRef := 0 } a).cells.getD 0 []
      = store0.cells.getD 0 [] ++ [a] := by
    unfold PRef.add_alias
    exact getD_set_zero _ _ _ h0
  have h1 : (resolveP (PRef.add_alias store0 { base := b1, aliasesRef := 0 } a)
      { base := b2, aliasesRef := 0 }).aliases = store0.cells.getD 0 [] ++ [a] := by
    unfold resolveP
    exact hcell
  refine ⟨h1, rfl, ?_, ?_⟩
  · have hm : pyUpper t0 ≠ (resolveP store0 { base := b2, aliasesRef := 0 }).name ∧
        pyUpper t0 ∉ (resolveP store0 { base := b2, aliasesRef := 0 }).aliases :=
      ⟨hneq, hnotin⟩
    simp [Parameter.from_parfile_line, hsplit, if_pos hm]
  · have hmem : pyUpper t0 ∈ (resolveP (PRef.add_alias store0 { base := b1, aliasesRef := 0 } a)
        { base := b2, aliasesRef := 0 }).aliases := by
      rw [h1, ht0]
      exact List.mem_append_right _ (List.mem_singleton.mpr rfl)
    have hm : ¬(pyUpper t0 ≠ (resolveP (PRef.add_alias store0 { base := b1, aliasesRef := 0 } a)
        { base := b2, aliasesRef := 0 }).name ∧
        pyUpper t0 ∉ (resolveP (PRef.add_alias store0 { base := b1, aliasesRef := 0 } a)
          { base := b2, aliasesRef := 0 }).aliases) :=
      fun hcon => hcon.2 hmem
    obtain ⟨v, hv'⟩ := Option.isSome_iff_exists.mp hv
    have hv2 : (resolveP (PRef.add_alias store0 { base := b1, aliasesRef := 0 } a)
        { base := b2, aliasesRef := 0 }).parse_value t1 = some v := hv'
    have heq := from_parfile_line_eq_applyTail hsplit hm hv2
    rw [heq]
    rfl

/-- Witness for C9: after `add_alias` on the first default-constructed
parameter, the second one claims an `XX`-led line it did not claim before. -/
theorem default_aliases_shared_witness :
    (resolveP (PRef.add_alias initAliasStore { base := F0test, aliasesRef := 0 } ("XX"))
        { base := pF2, aliasesRef := 0 }).aliases = [("XX")] ∧
    ((resolveP (PRef.add_alias initAliasStore { base := F0test, aliasesRef := 0 } ("XX"))
        { base := pF2, aliasesRef := 0 }).from_parfile_line ("XX 3")).map (fun r => r.1) =
      some true ∧
    (resolveP initAliasStore { base := pF2, aliasesRef := 0 }).from_parfile_line ("XX 3") =
      some (false, resolveP initAliasStore { base := pF2, aliasesRef := 0 }) := by
  obtain ⟨h1, h2, h3, h4⟩ :=
    default_aliases_shared initAliasStore (by decide) F0test pF2 ("XX") ("XX 3") ("XX") ("3")
      initAliasStore initAliasStore _ { base := F0test, aliasesRef := 0 }
      { base := pF2, aliasesRef := 0 } rfl rfl rfl (by decide) (by decide) (by decide)
      (by decide) (by decide)
  refine ⟨?_, h4, h3⟩
  rw [h1]
  rfl


/-! ## Claim C1 -/

instance tokenOKDecidable (s : String) : Decidable (tokenOK s) := by
  unfold tokenOK
  exact inferInstance

/-- C1 counterexample: a parameter whose name is not upper-case does not
round-trip — `from_parfile_line` upper-cases the first token, the name
comparison fails, the line is not claimed and the fresh parameter's value
stays unset instead of equalling the original. -/
theorem roundtrip_lowercase_name_fails :
    (pLowerFresh.from_parfile_line pLower.as_parfile_line).map
        (fun r => (r.1, r.2.value)) = some (false, none) := by decide

/-- C1 amended: the parfile round-trip holds for parameters whose name is
already upper-case and whose name and printed fields are well-formed
tokens: re-parsing the serialized line into a fresh same-named parameter
(default frozen, value and uncertainty unset, same parser) claims the line
and reproduces the frozen flag exactly, the value up to the parse/print
pair (`parse(print(v))`), and the uncertainty up to the
`str`/`fortran_float` pair. -/
theorem as_parfile_roundtrip (p q : Parameter) (v : Val)
    (hv : p.value = some v)
    (hname : tokenOK p.name)
    (hup : pyUpper p.name = p.name)
    (hpv : tokenOK (p.print_value v))
    (hqname : q.name = p.name)
    (hqparse : q.parse_value = p.parse_value)
    (hqfrozen : q.frozen = true)
    (hqunc : q.uncertainty = none)
    (hreparse : (p.parse_value (p.print_value v)).isSome = true)
    (huncOK : ∀ u, p.uncertainty = some u →
      tokenOK (pyStr u) ∧ (fortran_float (pyStr u)).isSome = true) :
    ∃ q', q.from_parfile_line p.as_parfile_line = some (true, q') ∧
      q'.value = p.parse_value (p.print_value v) ∧
      q'.frozen = p.frozen ∧
      (p.uncertainty = none → q'.uncertainty = none) ∧
      (∀ u, p.uncertainty = some u →
        q'.uncertainty = (fortran_float (pyStr u)).map Val.num) := by
  obtain ⟨w, hw⟩ := Option.isSome_iff_exists.mp hreparse
  have hw' : q.parse_value (p.print_value v) = some w := by
    rw [hqparse]
    exact hw
  have hm : ¬(pyUpper p.name ≠ q.name ∧ pyUpper p.name ∉ q.aliases) := by
    rw [hup, hqname]
    simp
  rcases hu : p.uncertainty with _ | u
  · by_cases hf : p.frozen = true
    · have hline : p.as_parfile_line =
          padRight 15 p.name ++ " " ++ padLeft 25 (p.print_value v) ++ "\n" := by
        simp [Parameter.as_parfile_line, hv, hu, hf]
      have hsp : pySplit p.as_parfile_line = [p.name, p.print_value v] := by
        unfold pySplit
        rw [hline]
        have hd : (padRight 15 p.name ++ " " ++ padLeft 25 (p.print_value v) ++ "\n").data
            = (padRight 15 p.name ++ " " ++ padLeft 25 (p.print_value v)).data
              ++ [('\n' : Char)] := by simp
        rw [hd, fTokens_line p.name (p.print_value v) hname [('\n' : Char)],
          fTokens_word (p.print_value v).data hpv.1 hpv.2 (by decide) [], fTokens_nil]
        simp [mk_data]
      have heq := from_parfile_line_eq_applyTail hsp hm hw'
      refine ⟨{ q with value := some w }, by rw [heq]; rfl, hw.symm, ?_,
        fun _ => hqunc, ?_⟩
      · show q.frozen = p.frozen
        rw [hqfrozen, hf]
      · intro u0 h0
        exact absurd h0 (by simp)
    · rw [Bool.not_eq_true] at hf
      have hline : p.as_parfile_line =
          padRight 15 p.name ++ " " ++ padLeft 25 (p.print_value v) ++ " 1" ++ "\n" := by
        simp [Parameter.as_parfile_line, hv, hu, hf]
      have hsp : pySplit p.as_parfile_line = [p.name, p.print_value v, ("1")] := by
        unfold pySplit
        rw [hline]
        have hd : (padRight 15 p.name ++ " " ++ padLeft 25 (p.print_value v) ++ " 1"
              ++ "\n").data
            = (padRight 15 p.name ++ " " ++ padLeft 25 (p.print_value v)).data
              ++ [(' ' : Char), ('1' : Char), ('\n' : Char)] := by simp
        rw [hd, fTokens_line p.name (p.print_value v) hname
            [(' ' : Char), ('1' : Char), ('\n' : Char)],
          fTokens_word (p.print_value v).data hpv.1 hpv.2 (by decide)
            [('1' : Char), ('\n' : Char)],
          show [('1' : Char), ('\n' : Char)] = [('1' : Char)] ++ ('\n' : Char) :: [] from rfl,
          fTokens_word [('1' : Char)] (by decide) (by decide) (by decide) [], fTokens_nil]
        simp [mk_data, show String.mk [('1' : Char)] = ("1") from rfl]
      have heq := from_parfile_line_eq_applyTail hsp hm hw'
      refine ⟨{ q with value := some w, frozen := false }, ?_, hw.symm, ?_,
        fun _ => hqunc, ?_⟩
      · rw [heq]
        simp [Parameter.applyTail, show pyInt ("1") = some 1 from by decide]
      · show false = p.frozen
        rw [hf]
      · intro u0 h0
        exact absurd h0 (by simp)
  · obtain ⟨hutok, husome⟩ := huncOK u hu
    obtain ⟨u', hu'⟩ := Option.isSome_iff_exists.mp husome
    by_cases hf : p.frozen = true
    · have hline : p.as_parfile_line =
          padRight 15 p.name ++ " " ++ padLeft 25 (p.print_value v) ++ " " ++ ("0")
            ++ " " ++ pyStr u ++ "\n" := by
        simp [Parameter.as_parfile_line, hv, hu, hf]
      have hsp : pySplit p.as_parfile_line =
          [p.name, p.print_value v, ("0"), pyStr u] := by
        unfold pySplit
        rw [hline]
        have hd : (padRight 15 p.name ++ " " ++ padLeft 25 (p.print_value v) ++ " " ++ ("0")
              ++ " " ++ pyStr u ++ "\n").data
            = (padRight 15 p.name ++ " " ++ padLeft 25 (p.print_value v)).data
              ++ ((' ' : Char) :: ([('0' : Char)]
                ++ ((' ' : Char) :: ((pyStr u).data ++ [('\n' : Char)])))) := by
          simp [List.append_assoc]
        rw [hd, fTokens_line p.name (p.print_value v) hname _,
          fTokens_word (p.print_value v).data hpv.1 hpv.2 (by decide) _,
          fTokens_word [('0' : Char)] (by decide) (by decide) (by decide) _,
          fTokens_word (pyStr u).data hutok.1 hutok.2 (by decide) [], fTokens_nil]
        simp [mk_data, show String.mk [('0' : Char)] = ("0") from rfl]
      have heq := from_parfile_line_eq_applyTail hsp hm hw'
      refine ⟨{ q with value := some w, uncertainty := some (Val.num u') }, ?_, hw.symm,
        ?_, ?_, ?_⟩
      · rw [heq]
        simp [Parameter.applyTail, show pyInt ("0") = some 0 from by decide, hu']
      · show q.frozen = p.frozen
        rw [hqfrozen, hf]
      · intro h0
        exact absurd h0 (by simp)
      · intro u0 h0
        obtain rfl := Option.some.inj h0
        rw [hu', optMapSome]
    · rw [Bool.not_eq_true] at hf
      have hline : p.as_parfile_line =
          padRight 15 p.name ++ " " ++ padLeft 25 (p.print_value v) ++ " " ++ ("1")
            ++ " " ++ pyStr u ++ "\n" := by
        simp [Parameter.as_parfile_line, hv, hu, hf]
      have hsp : pySplit p.as_parfile_line =
          [p.name, p.print_value v, ("1"), pyStr u] := by
        unfold pySplit
        rw [hline]
        have hd : (padRight 15 p.name ++ " " ++ padLeft 25 (p.print_value v) ++ " " ++ ("1")
              ++ " " ++ pyStr u ++ "\n").data
            = (padRight 15 p.name ++ " " ++ padLeft 25 (p.print_value v)).data
              ++ ((' ' : Char) :: ([('1' : Char)]
                ++ ((' ' : Char) :: ((pyStr u).data ++ [('\n' : Char)])))) := by
          simp [List.append_assoc]
        rw [hd, fTokens_line p.name (p.print_value v) hname _,
          fTokens_word (p.print_value v).data hpv.1 hpv.2 (by decide) _,
          fTokens_word [('1' : Char)] (by decide) (by decide) (by decide) _,
          fTokens_word (pyStr u).data hutok.1 hutok.2 (by decide) [], fTokens_nil]
        simp [mk_data, show String.mk [('1' : Char)] = ("1") from rfl]
      have heq := from_parfile_line_eq_applyTail hsp hm hw'
      refine ⟨{ q with
          value := some w,
          frozen := false,
          uncertainty := some (Val.num u') }, ?_, hw.symm, ?_, ?_, ?_⟩
      · rw [heq]
        simp [Parameter.applyTail, show pyInt ("1") = some 1 from by decide, hu']
      · show false = p.frozen
        rw [hf]
      · intro h0
        exact absurd h0 (by simp)
      · intro u0 h0
        obtain rfl := Option.some.inj h0
        rw [hu', optMapSome]

/-- Witness for C1 (amended): the fully-specified `F0` round-trips through
its parfile line into a fresh `F0`. -/
theorem as_parfile_roundtrip_witness :
    (F0test.from_parfile_line F0full.as_parfile_line).map
        (fun r => (r.1, r.2.value, r.2.frozen, r.2.uncertainty)) =
      some (true, some (Val.num (mkRat 100 1)), false, some (Val.num (mkRat 1 10000))) := by
  obtain ⟨q', h1, h2, h3, h4, h5⟩ :=
    as_parfile_roundtrip F0full F0test (Val.num (mkRat 100 1)) rfl (by decide) (by decide)
      (by decide) rfl rfl rfl rfl (by decide)
      (by intro u h
          obtain rfl := Option.some.inj h
          exact ⟨by decide, by decide⟩)
  have hu := h5 (Val.num (mkRat 1 10000)) rfl
  rw [h1, optMapSome]
  show some (true, q'.value, q'.frozen, q'.uncertainty)
      = some (true, some (Val.num (mkRat 100 1)), false, some (Val.num (mkRat 1 10000)))
  rw [h2, h3, hu]
  decide

end Pint
